import Mathlib

/-!
A shallow embedding of `hash_table.h` (an open-addressing, linear-probing
string-keyed hash table in C) and proofs about its behaviour.

Modelling conventions:
* A C string key is a `List Nat` of its (nonzero) bytes; `strcmp(a,b) == 0`
  is list equality.
* `u_int64_t` / `size_t` arithmetic is `Nat` arithmetic reduced `% 2^64`
  exactly where the C code can wrap.
* A `void *` value is an element of an arbitrary type `V`; the C `NULL`
  value argument is modelled by `Option V` with `none` for `NULL`.
* The slot array `HashTableEntry *_entries` is a `List (Option (Key × V))`
  whose length is the capacity; `none` is an empty slot (`key == NULL`).
* The unbounded C probe loops are given fuel `capacity`; running out of fuel
  returns `none` and models the C loop failing to terminate (which, as
  proved below, cannot happen on tables reachable through the public API).
* `calloc`/`strdup` outcomes are explicit `Bool` parameters (`true` =
  allocation succeeds); `malloc` at `hashtable_create` is not a subject of
  any claim and is modelled as always succeeding.
-/

namespace HashTableH

/-- The modulus of 64-bit C arithmetic (`u_int64_t`, `size_t`). -/
def two64 : Nat := 2 ^ 64

/-- A C string key: the list of its bytes (each nonzero, null terminator
excluded). -/
abbrev Key := List Nat

/-- The slot array: each slot is empty (`none`, i.e. `key == NULL`) or holds
a key and a value. -/
abbrev Entries (V : Type) := List (Option (Key × V))

/-- `djb2_hash`: `hash = hash * 33 + c` over every byte, seeded with 5381,
in wrapping 64-bit arithmetic.  The C body computes
`((hash << 5) + hash) + c` with `u_int64_t` wrapping, which is
`(hash * 33 + c) % 2^64`. -/
def djb2_hash (key : Key) : Nat :=
  key.foldl (fun hash c => (hash * 33 + c) % two64) 5381

/-- The candidate slot index: `(size_t)(hash & (u_int64_t)(capacity - 1))`. -/
def start_index (capacity : Nat) (key : Key) : Nat :=
  djb2_hash key &&& (capacity - 1)

/-- One probe advance: `index++`, then `if (index >= capacity) index = 0`. -/
def next_index (capacity index : Nat) : Nat :=
  if capacity ≤ index + 1 then 0 else index + 1

/-- Where a probe of the insertion primitive stops. -/
inductive ProbeStop where
  /-- The loop body returned at an occupied slot: in the C source this
  happens when `strcmp(key, entries[index].key) != 0`, i.e. at the first
  occupied slot whose key DIFFERS from the probe key; the slot's value is
  then overwritten in place. -/
  | update (index : Nat)
  /-- The loop exited at an empty slot (`entries[index].key == NULL`). -/
  | empty (index : Nat)
deriving DecidableEq, Repr

/-- The probe loop of `hashtable_set_entry` (fuel-bounded).  Faithful to the
source: `while (entries[index].key != NULL) { if (strcmp(key,
entries[index].key) != 0) { update; return; } index++; wrap; }`.  `none`
models the C loop never terminating. -/
def find_set (entries : Entries V) (capacity : Nat) (key : Key) :
    Nat → Nat → Option ProbeStop
  | _, 0 => none
  | index, fuel + 1 =>
    match entries.getD index none with
    | none => some (.empty index)
    | some (k, _) =>
      if key ≠ k then some (.update index)
      else find_set entries capacity key (next_index capacity index) fuel

/-- The probe loop of `hashtable_get` (fuel-bounded).  `some none` is the C
`return NULL` at an empty slot (key absent); `some (some v)` is a key match;
`none` models the C loop never terminating. -/
def find_get (entries : Entries V) (capacity : Nat) (key : Key) :
    Nat → Nat → Option (Option V)
  | _, 0 => none
  | index, fuel + 1 =>
    match entries.getD index none with
    | none => some none
    | some (k, v) =>
      if key = k then some (some v)
      else find_get entries capacity key (next_index capacity index) fuel

/-- `hashtable_set_entry`.  `live = true` models a non-NULL `p_length`
(a direct insert, which duplicates the key and increments the length);
`live = false` models the `NULL` `p_length` of resize migration.
`strdupOk` is the outcome of the `strdup` call (only consulted when `live`).
Returns `(new entries, length was incremented, returned key)`; `none` is
the C `return NULL` on `strdup` failure — or the probe loop not
terminating. -/
def hashtable_set_entry (entries : Entries V) (capacity : Nat) (key : Key)
    (value : V) (live : Bool) (strdupOk : Bool) :
    Option (Entries V × Bool × Key) :=
  match find_set entries capacity key (start_index capacity key) capacity with
  | none => none
  | some (.update i) =>
    match entries.getD i none with
    | some (k0, _) => some (entries.set i (some (k0, value)), false, k0)
    | none => none
  | some (.empty i) =>
    if live then
      if strdupOk then some (entries.set i (some (key, value)), true, key)
      else none
    else some (entries.set i (some (key, value)), false, key)

/-- The hash table: `capacity`, `length`, and the slot array `_entries`. -/
structure HashTable (V : Type) where
  capacity : Nat
  length : Nat
  entries : Entries V
deriving DecidableEq, Repr

/-- One step of the resize migration loop: skip an empty old slot, move an
occupied one into the new array via `hashtable_set_entry` with a `NULL`
length pointer (`live = false`). -/
def move_step (cap2 : Nat) (acc : Option (Entries V))
    (slot : Option (Key × V)) : Option (Entries V) :=
  match acc, slot with
  | none, _ => none
  | some es, none => some es
  | some es, some (k, v) =>
    match hashtable_set_entry es cap2 k v false true with
    | none => none
    | some (es2, _, _) => some es2

/-- The resize migration loop of `hashtable_expand`: move every occupied
slot of the old array into a fresh zeroed array of `cap2` slots. -/
def expand_move (cap2 : Nat) (old : Entries V) : Option (Entries V) :=
  old.foldl (move_step cap2) (some (List.replicate cap2 none))

/-- `hashtable_expand`: double the capacity (checking `size_t` overflow as
`new_capacity < capacity`), `calloc` a fresh zeroed slot array (`callocOk`
is the allocation outcome), then move every occupied slot of the old array
into it via `hashtable_set_entry` with a `NULL` length pointer.  `none` is
the C `return false`. -/
def hashtable_expand (t : HashTable V) (callocOk : Bool) :
    Option (HashTable V) :=
  if t.capacity * 2 % two64 < t.capacity then none
  else if callocOk then
    match expand_move (t.capacity * 2 % two64) t.entries with
    | none => none
    | some es =>
      some { capacity := t.capacity * 2 % two64, length := t.length,
             entries := es }
  else none

/-- `hashtable_create`: capacity `INITIAL_CAPACITY = 16`, length 0,
zeroed slot array. -/
def hashtable_create (V : Type) : HashTable V :=
  { capacity := 16, length := 0, entries := List.replicate 16 none }

/-- `hashtable_get`: probe from the candidate index; `none` is the C
`NULL` (key absent). -/
def hashtable_get (t : HashTable V) (key : Key) : Option V :=
  match find_get t.entries t.capacity key (start_index t.capacity key)
      t.capacity with
  | none => none
  | some r => r

/-- The tail of `hashtable_set`: the final `hashtable_set_entry` call with
the live length counter (`live = true`), applied to the (possibly just
expanded) table.  Returns the mutated table and `some` stored key on
success, the untouched table and `none` on `strdup` failure. -/
def set_after_expand (t2 : HashTable V) (key : Key) (v : V)
    (strdupOk : Bool) : HashTable V × Option Key :=
  match hashtable_set_entry t2.entries t2.capacity key v true strdupOk with
  | none => (t2, none)
  | some (es, inc, k) =>
    ({ t2 with entries := es,
               length := t2.length + (if inc then 1 else 0) }, some k)

/-- `hashtable_set`.  A `none` value is rejected up front (the C
`value == NULL` check).  If `length >= capacity / 2` the table is expanded
first; on expansion failure `set` returns `NULL` with the table untouched.
Then `hashtable_set_entry` runs with the live length counter (see
`set_after_expand`). -/
def hashtable_set (t : HashTable V) (key : Key) (value : Option V)
    (callocOk strdupOk : Bool) : HashTable V × Option Key :=
  match value with
  | none => (t, none)
  | some v =>
    if t.capacity / 2 ≤ t.length then
      match hashtable_expand t callocOk with
      | none => (t, none)
      | some t2 => set_after_expand t2 key v strdupOk
    else set_after_expand t key v strdupOk

/-- `hashtable_length`. -/
def hashtable_length (t : HashTable V) : Nat := t.length

/-- `hashtable_create_iterator`: the cursor starts at index 0. -/
def hashtable_create_iterator (_t : HashTable V) : Nat := 0

/-- The scan loop of `hashtable_next` (structurally recursive on the
remaining scan distance `capacity - index`, which the wrapper supplies). -/
def next_scan (t : HashTable V) : Nat → Nat → Option (Nat × Key × V)
  | _, 0 => none
  | index, fuel + 1 =>
    if index < t.capacity then
      match t.entries.getD index none with
      | some (k, v) => some (index + 1, k, v)
      | none => next_scan t (index + 1) fuel
    else none

/-- `hashtable_next`: scan from the cursor to the end of the slot array;
at the first occupied slot return its pair and the advanced cursor; `none`
is the C `return false` (end of sequence). -/
def hashtable_next (t : HashTable V) (index : Nat) :
    Option (Nat × Key × V) :=
  next_scan t index (t.capacity - index)

/-- Drive `hashtable_next` from a cursor to exhaustion, collecting the
yielded pairs (fuel-bounded by the remaining scan distance). -/
def iterate_from (t : HashTable V) : Nat → Nat → List (Key × V)
  | _, 0 => []
  | index, fuel + 1 =>
    match hashtable_next t index with
    | none => []
    | some (index2, k, v) => (k, v) :: iterate_from t index2 fuel

/-- The full iteration sequence of a table: create an iterator and drive
`hashtable_next` until it signals end-of-sequence. -/
def hashtable_items (t : HashTable V) : List (Key × V) :=
  iterate_from t (hashtable_create_iterator t) t.capacity

/-- Apply a list of `hashtable_set` calls in order, keeping the final
table (allocations all succeed). -/
def runSets (t : HashTable V) : List (Key × Option V) → HashTable V
  | [] => t
  | (k, v) :: rest => runSets (hashtable_set t k v true true).1 rest

/-- Apply a list of `hashtable_set` calls in order (allocations all
succeed), returning `none` if any call fails. -/
def runSetsChecked (t : HashTable V) :
    List (Key × V) → Option (HashTable V)
  | [] => some t
  | (k, v) :: rest =>
    match hashtable_set t k (some v) true true with
    | (_, none) => none
    | (t2, some _) => runSetsChecked t2 rest

/-- The number of occupied slots of a slot array. -/
def occupied (entries : Entries V) : Nat :=
  entries.countP fun s => s.isSome

/-- The tables reachable through the public API: `hashtable_create`
followed by successful `hashtable_set` calls. -/
inductive Reachable : HashTable V → Prop where
  | create : Reachable (hashtable_create V)
  | step {t t' : HashTable V} {key : Key} {value : Option V}
      {callocOk strdupOk : Bool} {r : Key} :
      Reachable t →
      hashtable_set t key value callocOk strdupOk = (t', some r) →
      Reachable t'

/-! Concrete example tables.  The byte strings `"a"` and `"q"` are the
single-byte keys `[97]` and `[113]`; both hash to candidate slot 6 at
capacity 16 (`djb2_hash [97] = 177670`, `djb2_hash [113] = 177686`, and
`177670 &&& 15 = 177686 &&& 15 = 6`). -/

/-- The table after `set("a", 1)` on a fresh table: `([97], 1)` sits at its
home slot 6. -/
def tableA : HashTable Nat :=
  (hashtable_set (hashtable_create Nat) [97] (some 1) true true).1

/-- The slot array of `tableA`. -/
def entriesA : Entries Nat :=
  (List.replicate 16 none).set 6 (some ([97], 1))

/-- The table after `set("a", 1); set("a", 2)` on a fresh table. -/
def tableDup : HashTable Nat :=
  (hashtable_set tableA [97] (some 2) true true).1

/-- Ten pairwise-distinct keys: `"a"` and `"q"` (which share home slot 6 at
capacity 16) and eight single-byte fillers with home slots 7..14; enough
successful inserts to force one resize (16 → 32). -/
def c6keys : List (Key × Nat) :=
  [([97], 1), ([113], 2), ([2], 3), ([3], 4), ([4], 5), ([5], 6),
   ([6], 7), ([7], 8), ([8], 9), ([9], 10)]

/-- Eight pairwise-distinct single-byte keys with home slots 7..14: filling
a fresh table to length 8 = capacity/2, so the next `set` triggers a
resize. -/
def c7keys : List (Key × Nat) :=
  [([2], 3), ([3], 4), ([4], 5), ([5], 6), ([6], 7), ([7], 8),
   ([8], 9), ([9], 10)]

/-- The well-formedness invariant maintained by the public API: the slot
array has exactly `capacity` slots, at most `length` of them occupied, the
load factor is at most 1/2, and the capacity is a power of two that started
at 16 and has not yet overflowed `size_t` when doubled. -/
def WF (t : HashTable V) : Prop :=
  t.entries.length = t.capacity ∧
  occupied t.entries ≤ t.length ∧
  t.length * 2 ≤ t.capacity ∧
  (∃ j, t.capacity = 16 * 2 ^ j) ∧
  t.capacity ≤ 2 ^ 63

end HashTableH

namespace HashTableH

/-! ### Theorems -/

/-- C1 (code bug evaluation): in `hashtable_set_entry`, probing the slot
array holding `([97], 1)` at slot 6 with the UNEQUAL key `[113]` overwrites
slot 6's value in place (leaving the slot keyed `[97]`) and returns the
resident key `[97]`, while probing with the EQUAL key `[97]` continues past
slot 6 and inserts a second `[97]` entry at slot 7, incrementing the
length.  The claim states exactly the opposite behaviour (equal key →
update in place; unequal key → continue probing). -/
theorem C1_set_entry_inverted_eval :
    hashtable_set_entry entriesA 16 [113] (2 : Nat) true true
      = some (entriesA.set 6 (some ([97], 2)), false, [97]) ∧
    hashtable_set_entry entriesA 16 [97] (2 : Nat) true true
      = some (entriesA.set 7 (some ([97], 2)), true, [97]) := by
  exact ⟨by decide, by decide⟩

/-- C2 (code bug evaluation): on the table holding `("a", 1)`, the call
`set("q", 2)` succeeds (it returns the non-NULL key `[97]`), yet
immediately afterwards `get("q")` returns not-found, because the colliding
probe overwrote the slot keyed `"a"` instead of inserting `"q"`. -/
theorem C2_get_after_set_eval :
    (hashtable_set tableA [113] (some 2) true true).2 = some [97] ∧
    hashtable_get (hashtable_set tableA [113] (some 2) true true).1 [113]
      = none := by
  exact ⟨by decide, by decide⟩

/-- C3 (code bug evaluation): on the table holding `("a", 1)`, the second
call `set("a", 2)` succeeds, but the length grows from 1 to 2 (the claim
says unchanged) and `get("a")` still returns the OLD value 1 (the claim
says last-write-wins), because the equal-key probe skipped the existing
slot and inserted a duplicate. -/
theorem C3_second_set_eval :
    hashtable_length tableA = 1 ∧
    (hashtable_set tableA [97] (some 2) true true).2 = some [97] ∧
    hashtable_length tableDup = 2 ∧
    hashtable_get tableDup [97] = some 1 := by
  exact ⟨by decide, by decide, by decide, by decide⟩

/-- C4 (code bug evaluation): two successful `set` calls on a fresh table
with M = 1 distinct key (`"a"` twice) leave the length at 2, not 1. -/
theorem C4_length_after_sets_eval :
    (runSetsChecked (hashtable_create Nat)
        [([97], 1), ([97], 2)]).map hashtable_length = some 2 := by
  decide

/-- C6 (code bug evaluation): ten pairwise-distinct keys are all set
successfully (the `Option.map` applying to a `some` result shows every call
succeeded) and the sequence forces one resize (capacity 32 > 16), yet
`get("q")` afterwards returns not-found: `set("q", 2)` had collided with
`"a"` at slot 6 and overwritten that slot instead of storing `"q"`. -/
theorem C6_get_after_resizes_eval :
    (runSetsChecked (hashtable_create Nat) c6keys).map
        (fun t => (t.capacity, hashtable_get t [113]))
      = some (32, none) := by
  decide

/-- C7 (counterexample): on the table built by eight successful `set`
calls (capacity 16, length 8 = capacity/2), a further `set` whose `strdup`
fails returns the failure result `none` — yet the table it leaves behind
has capacity 32: the resize that preceded the failed key duplication is
retained, so this failing `set` does NOT leave the table fully
unchanged. -/
theorem C7_failed_set_mutates_eval :
    (runSetsChecked (hashtable_create Nat) c7keys).map
        (fun t => (t.capacity, hashtable_length t,
          (hashtable_set t [10] (some 99) true false).2,
          (hashtable_set t [10] (some 99) true false).1.capacity,
          (hashtable_set t [10] (some 99) true false).1.length))
      = some (16, 8, none, 32, 8) := by
  decide

/-- C8 (code bug evaluation): the table built by the two successful calls
`set("a", 1); set("a", 2)` reports length 2, and iterating it yields the
two pairs `("a", 1)` and `("a", 2)`: a duplicated key, and the pair
`("a", 1)` does not carry the final (last-write-wins) value of any prior
`set` of `"a"`, which was 2. -/
theorem C8_iteration_duplicate_eval :
    hashtable_length tableDup = 2 ∧
    hashtable_items tableDup = [([97], 1), ([97], 2)] := by
  exact ⟨by decide, by decide⟩

variable {V : Type}

theorem occupied_nil : occupied ([] : Entries V) = 0 := rfl

theorem occupied_cons (a : Option (Key × V)) (l : Entries V) :
    occupied (a :: l) = occupied l + if a.isSome then 1 else 0 :=
  List.countP_cons _ a l

theorem occupied_replicate_none (n : Nat) :
    occupied (List.replicate n (none : Option (Key × V))) = 0 := by
  induction n with
  | zero => rfl
  | succ n ih => simp [List.replicate_succ, occupied_cons, ih]

theorem occupied_set_of_getD_some (entries : Entries V) (i : Nat)
    (x y : Key × V) (hy : entries.getD i none = some y) :
    occupied (entries.set i (some x)) = occupied entries := by
  induction entries generalizing i with
  | nil => simp [List.getD] at hy
  | cons a l ih =>
    cases i with
    | zero =>
      simp only [List.getD_eq_getElem?_getD, List.getElem?_cons_zero,
        Option.getD_some] at hy
      simp [List.set, occupied_cons, hy]
    | succ i =>
      have hy2 : l.getD i none = some y := by
        simpa [List.getD_eq_getElem?_getD] using hy
      simp [List.set, occupied_cons, ih i hy2]

theorem occupied_set_le (entries : Entries V) (i : Nat) (x : Key × V) :
    occupied (entries.set i (some x)) ≤ occupied entries + 1 := by
  induction entries generalizing i with
  | nil => simp [occupied_nil]
  | cons a l ih =>
    cases i with
    | zero =>
      simp only [List.set, occupied_cons, Option.isSome_some, if_true]
      omega
    | succ i =>
      simp only [List.set, occupied_cons]
      have := ih i
      omega

theorem set_entry_spec (entries : Entries V) (cap : Nat) (key : Key) (v : V)
    (live sOk : Bool) (es : Entries V) (inc : Bool) (k : Key)
    (h : hashtable_set_entry entries cap key v live sOk = some (es, inc, k)) :
    es.length = entries.length ∧ occupied es ≤ occupied entries + 1 ∧
      (live = true → (inc = true ∨ occupied es = occupied entries)) := by
  unfold hashtable_set_entry at h
  split at h
  · exact absurd h (by simp)
  case h_2 i hfind =>
    split at h
    case h_1 k0 v0 hgetD =>
      cases h
      exact ⟨List.length_set _ _ _,
        le_trans (le_of_eq (occupied_set_of_getD_some entries i _ _ hgetD))
          (Nat.le_add_right _ 1),
        fun _ => Or.inr (occupied_set_of_getD_some entries i _ _ hgetD)⟩
    · exact absurd h (by simp)
  case h_3 i hfind =>
    split at h
    · split at h
      · cases h
        exact ⟨List.length_set _ _ _, occupied_set_le entries i _,
          fun _ => Or.inl rfl⟩
      · exact absurd h (by simp)
    case isFalse hlive =>
      cases h
      exact ⟨List.length_set _ _ _, occupied_set_le entries i _,
        fun hl => absurd hl hlive⟩

theorem foldl_move_step_none (cap2 : Nat) (old : Entries V) :
    old.foldl (move_step cap2) none = none := by
  induction old with
  | nil => rfl
  | cons slot rest ih => simpa [move_step] using ih

theorem expand_move_spec (cap2 : Nat) (old : Entries V) :
    ∀ (acc es : Entries V),
    old.foldl (move_step cap2) (some acc) = some es →
    es.length = acc.length ∧ occupied es ≤ occupied acc + occupied old := by
  induction old with
  | nil =>
    intro acc es h
    cases h
    simp [occupied_nil]
  | cons slot rest ih =>
    intro acc es h
    cases slot with
    | none =>
      rw [List.foldl_cons] at h
      have hstep : move_step cap2 (some acc) none = some acc := rfl
      rw [hstep] at h
      have := ih acc es h
      simp only [occupied_cons, Option.isSome_none]
      omega
    | some kv =>
      obtain ⟨k, v⟩ := kv
      rw [List.foldl_cons] at h
      have hstep : move_step cap2 (some acc) (some (k, v))
          = match hashtable_set_entry acc cap2 k v false true with
            | none => none
            | some (es2, _, _) => some es2 := rfl
      rw [hstep] at h
      revert h
      split
      · intro h
        rw [foldl_move_step_none] at h
        exact absurd h (by simp)
      case h_2 es2 inc2 k2 hse =>
        intro h
        obtain ⟨hlen2, hocc2, _⟩ := set_entry_spec acc cap2 k v false true es2 inc2 k2 hse
        obtain ⟨hlen, hocc⟩ := ih es2 es h
        constructor
        · rw [hlen, hlen2]
        · simp only [occupied_cons, Option.isSome_some, if_true]
          omega

theorem expand_spec (t : HashTable V) (c : Bool) (t2 : HashTable V)
    (h : hashtable_expand t c = some t2) :
    t2.length = t.length ∧ t2.capacity = t.capacity * 2 % two64 ∧
      t.capacity ≤ t.capacity * 2 % two64 ∧
      t2.entries.length = t2.capacity ∧
      occupied t2.entries ≤ occupied t.entries := by
  unfold hashtable_expand at h
  split at h
  · exact absurd h (by simp)
  case isFalse hlt =>
    split at h
    · revert h
      unfold expand_move
      split
      · intro h
        exact absurd h (by simp)
      case h_2 es heq =>
        intro h
        cases h
        obtain ⟨hlen, _⟩ := expand_move_spec _ _ _ _ heq
        refine ⟨rfl, rfl, Nat.le_of_not_lt hlt, ?_, ?_⟩
        · simpa [List.length_replicate] using hlen
        · obtain ⟨_, hocc⟩ := expand_move_spec _ _ _ _ heq
          simpa [occupied_replicate_none] using hocc
    · exact absurd h (by simp)

theorem WF_expand (t : HashTable V) (c : Bool) (t2 : HashTable V)
    (hWF : WF t) (h : hashtable_expand t c = some t2) :
    t2.capacity = 2 * t.capacity ∧ t2.length = t.length ∧
      t2.entries.length = t2.capacity ∧
      occupied t2.entries ≤ occupied t.entries ∧
      (∃ j, t2.capacity = 16 * 2 ^ j) ∧ t2.capacity ≤ 2 ^ 63 := by
  obtain ⟨hE, hO, hL, ⟨j, hj⟩, h63⟩ := hWF
  obtain ⟨hlen, hcap, hle, hE2, hO2⟩ := expand_spec t c t2 h
  have hjpos : (1 : Nat) ≤ 2 ^ j := Nat.one_le_two_pow
  have h16 : 16 ≤ t.capacity := by
    rw [hj]; calc (16 : Nat) = 16 * 1 := by ring
    _ ≤ 16 * 2 ^ j := Nat.mul_le_mul_left 16 hjpos
  have h64 : two64 = 18446744073709551616 := by norm_num [two64]
  have h63n : (2 : Nat) ^ 63 = 9223372036854775808 := by norm_num
  have hdouble : t2.capacity = 2 * t.capacity := by
    rw [h64] at hcap hle
    rw [h63n] at h63
    omega
  have hlt64 : t.capacity * 2 < two64 := by
    rw [h64] at hcap hle ⊢
    rw [h63n] at h63
    omega
  refine ⟨hdouble, hlen, hE2, hO2, ⟨j + 1, ?_⟩, ?_⟩
  · rw [hdouble, hj, pow_succ]; ring
  · -- 2 * capacity ≤ 2^63 from capacity * 2 < 2^64 and capacity = 16 * 2^j
    rw [hdouble, hj]
    have h32 : t.capacity * 2 = 32 * 2 ^ j := by rw [hj]; ring
    rw [h32] at hlt64
    have h2j : (2 : Nat) ^ j < 2 ^ 59 := by
      have : (32 : Nat) * 2 ^ 59 = 2 ^ 64 := by norm_num [pow_succ]
      have hx : (32 : Nat) * 2 ^ j < 32 * 2 ^ 59 := by
        rw [this]; simpa [two64] using hlt64
      exact Nat.lt_of_mul_lt_mul_left hx
    have hj58 : j ≤ 58 := by
      have := (Nat.pow_lt_pow_iff_right (by norm_num : 1 < 2)).mp h2j
      omega
    calc 2 * (16 * 2 ^ j) = 32 * 2 ^ j := by ring
    _ ≤ 32 * 2 ^ 58 := Nat.mul_le_mul_left 32 (Nat.pow_le_pow_right (by norm_num) hj58)
    _ ≤ 2 ^ 63 := by norm_num [pow_succ]

theorem set_after_expand_WF (t2 : HashTable V) (key : Key) (v : V) (s : Bool)
    (hE : t2.entries.length = t2.capacity)
    (hO : occupied t2.entries ≤ t2.length)
    (hroom : (t2.length + 1) * 2 ≤ t2.capacity)
    (hpow : ∃ j, t2.capacity = 16 * 2 ^ j)
    (h63 : t2.capacity ≤ 2 ^ 63) :
    WF (set_after_expand t2 key v s).1 := by
  unfold set_after_expand
  split
  · exact show WF t2 from ⟨hE, hO, by omega, hpow, h63⟩
  case h_2 es inc k hse =>
    dsimp only
    obtain ⟨hlen, hocc, hlive⟩ :=
      set_entry_spec t2.entries t2.capacity key v true s es inc k hse
    rcases hlive rfl with hinc | hocceq
    · subst hinc
      refine ⟨by simpa [hE] using hlen, ?_, by simpa using hroom, hpow, h63⟩
      simpa using le_trans hocc (by omega)
    · cases inc
      · refine ⟨by simpa [hE] using hlen, ?_, by simp; omega, hpow, h63⟩
        simpa [hocceq] using hO
      · refine ⟨by simpa [hE] using hlen, ?_, by simpa using hroom, hpow, h63⟩
        simpa using le_trans hocc (by omega)

theorem WF_set (t : HashTable V) (key : Key) (value : Option V)
    (c s : Bool) (hWF : WF t) :
    WF (hashtable_set t key value c s).1 := by
  obtain ⟨hE, hO, hL, hpow, h63⟩ := hWF
  have h16 : 16 ≤ t.capacity := by
    obtain ⟨j, hj⟩ := hpow
    rw [hj]
    calc (16 : Nat) = 16 * 1 := by ring
    _ ≤ 16 * 2 ^ j := Nat.mul_le_mul_left 16 Nat.one_le_two_pow
  unfold hashtable_set
  split
  · exact ⟨hE, hO, hL, hpow, h63⟩
  case h_2 v =>
    split
    case isTrue hcond =>
      split
      · exact ⟨hE, hO, hL, hpow, h63⟩
      case h_2 t2 hexp =>
        obtain ⟨hdouble, hlen2, hE2, hO2, hpow2, h632⟩ :=
          WF_expand t c t2 ⟨hE, hO, hL, hpow, h63⟩ hexp
        exact set_after_expand_WF t2 key v s hE2
          (le_trans hO2 (by omega)) (by omega) hpow2 h632
    case isFalse hcond =>
      exact set_after_expand_WF t key v s hE hO (by omega) hpow h63

theorem exists_empty_slot (entries : Entries V)
    (hlt : occupied entries < entries.length) :
    ∃ e, e < entries.length ∧ entries.getD e none = none := by
  induction entries with
  | nil => simp [occupied_nil] at hlt
  | cons a l ih =>
    cases a with
    | none => exact ⟨0, by simp, by simp [List.getD]⟩
    | some kv =>
      have hlt2 : occupied l < l.length := by
        rw [List.length_cons] at hlt
        rw [occupied_cons] at hlt
        simp at hlt
        omega
      obtain ⟨e, he, hge⟩ := ih hlt2
      exact ⟨e + 1, by simpa using he, by simpa [List.getD_eq_getElem?_getD] using hge⟩

theorem next_index_eq_mod (cap idx : Nat) (h : idx < cap) :
    next_index cap idx = (idx + 1) % cap := by
  unfold next_index
  split
  case isTrue hle =>
    have heq : idx + 1 = cap := by omega
    rw [heq, Nat.mod_self]
  case isFalse hlt => rw [Nat.mod_eq_of_lt (by omega)]

theorem start_index_lt (cap : Nat) (key : Key) (hpos : 0 < cap) :
    start_index cap key < cap := by
  unfold start_index
  have h := Nat.and_le_right (n := djb2_hash key) (m := cap - 1)
  omega

theorem find_get_isSome (entries : Entries V) (cap : Nat) (key : Key) :
    ∀ (fuel idx : Nat), idx < cap →
    (∃ j, j < fuel ∧ entries.getD ((idx + j) % cap) none = none) →
    (find_get entries cap key idx fuel).isSome := by
  intro fuel
  induction fuel with
  | zero =>
    intro idx _ hex
    obtain ⟨j, hj, _⟩ := hex
    omega
  | succ fuel ih =>
    intro idx hidx hex
    obtain ⟨j, hj, hempty⟩ := hex
    unfold find_get
    cases hslot : entries.getD idx none with
    | none => simp [hslot]
    | some kv =>
      obtain ⟨k, v⟩ := kv
      by_cases hk : key = k
      · simp [hslot, hk]
      · simp only [hslot, hk, if_false, if_neg hk]
        have hj0 : j ≠ 0 := by
          intro h0
          rw [h0, Nat.add_zero, Nat.mod_eq_of_lt hidx, hslot] at hempty
          cases hempty
        obtain ⟨j', rfl⟩ : ∃ j', j = j' + 1 := ⟨j - 1, by omega⟩
        apply ih (next_index cap idx)
        · rw [next_index_eq_mod cap idx hidx]
          exact Nat.mod_lt _ (by omega)
        · refine ⟨j', by omega, ?_⟩
          rw [next_index_eq_mod cap idx hidx, Nat.mod_add_mod]
          have harith : idx + 1 + j' = idx + (j' + 1) := by omega
          rw [harith]
          exact hempty

theorem find_set_isSome (entries : Entries V) (cap : Nat) (key : Key) :
    ∀ (fuel idx : Nat), idx < cap →
    (∃ j, j < fuel ∧ entries.getD ((idx + j) % cap) none = none) →
    (find_set entries cap key idx fuel).isSome := by
  intro fuel
  induction fuel with
  | zero =>
    intro idx _ hex
    obtain ⟨j, hj, _⟩ := hex
    omega
  | succ fuel ih =>
    intro idx hidx hex
    obtain ⟨j, hj, hempty⟩ := hex
    unfold find_set
    cases hslot : entries.getD idx none with
    | none => simp [hslot]
    | some kv =>
      obtain ⟨k, v⟩ := kv
      by_cases hk : key = k
      · subst hk
        simp only [hslot, ne_eq, not_true_eq_false, if_false]
        have hj0 : j ≠ 0 := by
          intro h0
          rw [h0, Nat.add_zero, Nat.mod_eq_of_lt hidx, hslot] at hempty
          cases hempty
        obtain ⟨j', rfl⟩ : ∃ j', j = j' + 1 := ⟨j - 1, by omega⟩
        apply ih (next_index cap idx)
        · rw [next_index_eq_mod cap idx hidx]
          exact Nat.mod_lt _ (by omega)
        · refine ⟨j', by omega, ?_⟩
          rw [next_index_eq_mod cap idx hidx, Nat.mod_add_mod]
          have harith : idx + 1 + j' = idx + (j' + 1) := by omega
          rw [harith]
          exact hempty
      · simp [hslot, hk]

theorem probes_terminate (entries : Entries V) (cap : Nat) (key : Key)
    (hlen : entries.length = cap) (hocc : occupied entries < cap) :
    (find_get entries cap key (start_index cap key) cap).isSome ∧
    (find_set entries cap key (start_index cap key) cap).isSome := by
  have hpos : 0 < cap := lt_of_le_of_lt (Nat.zero_le _) hocc
  obtain ⟨e, he, hge⟩ := exists_empty_slot entries (by rw [hlen]; exact hocc)
  rw [hlen] at he
  have hstart := start_index_lt cap key hpos
  have hj : ∃ j, j < cap ∧
      entries.getD ((start_index cap key + j) % cap) none = none := by
    refine ⟨(cap + e - start_index cap key) % cap, Nat.mod_lt _ hpos, ?_⟩
    rw [Nat.add_mod_mod]
    have harith : start_index cap key + (cap + e - start_index cap key)
        = cap + e := by omega
    rw [harith, Nat.add_mod_left, Nat.mod_eq_of_lt he]
    exact hge
  exact ⟨find_get_isSome entries cap key cap (start_index cap key) hstart hj,
    find_set_isSome entries cap key cap (start_index cap key) hstart hj⟩

theorem WF_create : WF (hashtable_create V) := by
  refine ⟨by simp [hashtable_create], ?_, by norm_num [hashtable_create],
    ⟨0, by norm_num [hashtable_create]⟩, by norm_num [hashtable_create]⟩
  exact Nat.le_of_eq (occupied_replicate_none 16)

theorem Reachable_WF (t : HashTable V) (h : Reachable t) : WF t := by
  induction h with
  | create => exact WF_create
  | step hr heq ih =>
    rename_i t0 t' key value c s r
    have h1 := WF_set t0 key value c s ih
    rw [heq] at h1
    exact h1

theorem set_after_expand_capacity (t2 : HashTable V) (key : Key) (v : V)
    (s : Bool) : (set_after_expand t2 key v s).1.capacity = t2.capacity := by
  unfold set_after_expand
  split
  · rfl
  · rfl

theorem set_capacity_cases (t : HashTable V) (key : Key) (value : Option V)
    (c s : Bool) (hWF : WF t) :
    (hashtable_set t key value c s).1.capacity = t.capacity ∨
    (hashtable_set t key value c s).1.capacity = 2 * t.capacity := by
  unfold hashtable_set
  split
  · exact Or.inl rfl
  case h_2 v =>
    split
    · split
      · exact Or.inl rfl
      case h_2 t2 hexp =>
        have hd := (WF_expand t c t2 hWF hexp).1
        right
        rw [set_after_expand_capacity, hd]
    · exact Or.inl (set_after_expand_capacity t key v s)

theorem set_length_cases (t : HashTable V) (key : Key) (value : Option V)
    (c s : Bool) :
    (hashtable_set t key value c s).1.length = t.length ∨
    (hashtable_set t key value c s).1.length = t.length + 1 := by
  have hgo : ∀ (t2 : HashTable V) (v : V),
      (set_after_expand t2 key v s).1.length = t2.length ∨
      (set_after_expand t2 key v s).1.length = t2.length + 1 := by
    intro t2 v
    unfold set_after_expand
    split
    · exact Or.inl rfl
    case h_2 es inc k heq =>
      cases inc
      · simp
      · simp
  unfold hashtable_set
  split
  · exact Or.inl rfl
  case h_2 v =>
    split
    · split
      · exact Or.inl rfl
      case h_2 t2 heq =>
        have hl := (expand_spec t c t2 heq).1
        rcases hgo t2 v with h1 | h1
        · exact Or.inl (h1.trans hl)
        · exact Or.inr (by rw [h1, hl])
    · exact hgo t v

theorem runSets_length_mono (ops : List (Key × Option V)) :
    ∀ t : HashTable V, t.length ≤ (runSets t ops).length := by
  induction ops with
  | nil => intro t; exact Nat.le_refl _
  | cons op rest ih =>
    intro t
    obtain ⟨k, v⟩ := op
    have h1 := set_length_cases t k v true true
    have h2 := ih (hashtable_set t k v true true).1
    unfold runSets
    omega

theorem set_after_expand_failure (t2 : HashTable V) (key : Key) (v : V)
    (s : Bool) (h : (set_after_expand t2 key v s).2 = none) :
    (set_after_expand t2 key v s).1 = t2 := by
  unfold set_after_expand at h ⊢
  revert h
  split
  · intro _
    rfl
  case h_2 es inc k heq =>
    intro h
    exact absurd h (by simp)

/-- C5: every table reachable through `hashtable_create` and successful
`hashtable_set` calls has a capacity of the form `16 * 2^j` (a power of two
starting at 16), satisfies `length * 2 ≤ capacity` (so length never exceeds
capacity), and any further `hashtable_set` call leaves the capacity
unchanged or exactly doubles it. -/
theorem C5_reachable_invariants (t : HashTable V) (h : Reachable t) :
    (∃ j, t.capacity = 16 * 2 ^ j) ∧ t.length * 2 ≤ t.capacity ∧
    ∀ (key : Key) (value : Option V) (c s : Bool),
      (hashtable_set t key value c s).1.capacity = t.capacity ∨
      (hashtable_set t key value c s).1.capacity = 2 * t.capacity := by
  have hWF := Reachable_WF t h
  exact ⟨hWF.2.2.2.1, hWF.2.2.1,
    fun key value c s => set_capacity_cases t key value c s hWF⟩

/-- Witness for `C5_reachable_invariants` at the freshly created table. -/
theorem C5_reachable_invariants_witness :
    (∃ j, (hashtable_create Nat).capacity = 16 * 2 ^ j) ∧
    (hashtable_create Nat).length * 2 ≤ (hashtable_create Nat).capacity ∧
    ∀ (key : Key) (value : Option Nat) (c s : Bool),
      (hashtable_set (hashtable_create Nat) key value c s).1.capacity
        = (hashtable_create Nat).capacity ∨
      (hashtable_set (hashtable_create Nat) key value c s).1.capacity
        = 2 * (hashtable_create Nat).capacity :=
  C5_reachable_invariants (hashtable_create Nat) Reachable.create

/-- C7 (amended): every failing `hashtable_set` call returns `none`
(distinguishable from success) and leaves the length unchanged; a
null-value rejection leaves the table fully unchanged, as does any failure
on a table below the load-factor threshold (`length < capacity / 2`); in
every failing case the table is either fully unchanged or has had a
successful capacity-doubling resize applied before the failure (the
counterexample `C7_failed_set_mutates_eval` shows the resize really can be
retained by a failing call, refuting the claim's "fully unchanged"). -/
theorem C7_failed_set_effect (t : HashTable V) (key : Key)
    (value : Option V) (c s : Bool)
    (h : (hashtable_set t key value c s).2 = none) :
    (hashtable_set t key value c s).1.length = t.length ∧
    (value = none → (hashtable_set t key value c s).1 = t) ∧
    (t.length < t.capacity / 2 → (hashtable_set t key value c s).1 = t) ∧
    ((hashtable_set t key value c s).1 = t ∨
      (hashtable_set t key value c s).1.capacity = t.capacity * 2 % two64) := by
  unfold hashtable_set at h ⊢
  revert h
  split
  · intro _
    exact ⟨rfl, fun _ => rfl, fun _ => rfl, Or.inl rfl⟩
  case h_2 v =>
    split
    case isTrue hcond =>
      split
      · intro _
        exact ⟨rfl, fun hv => Option.noConfusion hv, fun _ => rfl, Or.inl rfl⟩
      case h_2 t2 hexp =>
        intro h
        have hfail := set_after_expand_failure t2 key v s h
        obtain ⟨hlen2, hcap2, _, _, _⟩ := expand_spec t c t2 hexp
        rw [hfail]
        refine ⟨hlen2, ?_, ?_, Or.inr hcap2⟩
        · intro hv
          exact Option.noConfusion hv
        · intro hlt
          exact absurd hcond (by omega)
    case isFalse hcond =>
      intro h
      have hfail := set_after_expand_failure t key v s h
      rw [hfail]
      exact ⟨rfl, fun _ => rfl, fun _ => rfl, Or.inl rfl⟩

/-- Witness for `C7_failed_set_effect`: a `set` with a `NULL` value on the
fresh table fails and changes nothing. -/
theorem C7_failed_set_effect_witness :
    (hashtable_set (hashtable_create Nat) [97] none true true).2 = none ∧
    ((hashtable_set (hashtable_create Nat) [97] none true true).1.length
        = (hashtable_create Nat).length ∧
      ((none : Option Nat) = none →
        (hashtable_set (hashtable_create Nat) [97] none true true).1
          = hashtable_create Nat) ∧
      ((hashtable_create Nat).length < (hashtable_create Nat).capacity / 2 →
        (hashtable_set (hashtable_create Nat) [97] none true true).1
          = hashtable_create Nat) ∧
      ((hashtable_set (hashtable_create Nat) [97] none true true).1
          = hashtable_create Nat ∨
        (hashtable_set (hashtable_create Nat) [97] none true true).1.capacity
          = (hashtable_create Nat).capacity * 2 % two64)) :=
  ⟨by decide, C7_failed_set_effect (hashtable_create Nat) [97] none true true
    (by decide)⟩

/-- C9: on every table reachable through the public API the slot array has
strictly fewer occupied slots than its capacity (the load-factor invariant
guarantees an empty slot), and therefore the linear-probe loops of
`hashtable_get` (`find_get`) and of the insertion primitive (`find_set`)
terminate within at most `capacity` probes (fuel `capacity` suffices). -/
theorem C9_probe_termination (t : HashTable V) (h : Reachable t) (key : Key) :
    occupied t.entries < t.capacity ∧
    (find_get t.entries t.capacity key (start_index t.capacity key)
        t.capacity).isSome ∧
    (find_set t.entries t.capacity key (start_index t.capacity key)
        t.capacity).isSome := by
  obtain ⟨hE, hO, hL, ⟨j, hj⟩, _⟩ := Reachable_WF t h
  have h16 : 16 ≤ t.capacity := by
    rw [hj]
    calc (16 : Nat) = 16 * 1 := by ring
    _ ≤ 16 * 2 ^ j := Nat.mul_le_mul_left 16 Nat.one_le_two_pow
  have hocc : occupied t.entries < t.capacity := by omega
  exact ⟨hocc, (probes_terminate t.entries t.capacity key hE hocc).1,
    (probes_terminate t.entries t.capacity key hE hocc).2⟩

/-- Witness for `C9_probe_termination` at the freshly created table with
key `"a"`. -/
theorem C9_probe_termination_witness :
    occupied (hashtable_create Nat).entries < (hashtable_create Nat).capacity ∧
    (find_get (hashtable_create Nat).entries (hashtable_create Nat).capacity
        [97] (start_index (hashtable_create Nat).capacity [97])
        (hashtable_create Nat).capacity).isSome ∧
    (find_set (hashtable_create Nat).entries (hashtable_create Nat).capacity
        [97] (start_index (hashtable_create Nat).capacity [97])
        (hashtable_create Nat).capacity).isSome :=
  C9_probe_termination (hashtable_create Nat) Reachable.create [97]

/-- C10: for every table (reachable or not), any single `hashtable_set`
call leaves the length unchanged or increments it by exactly one, and the
length is monotone non-decreasing along any sequence of `set` calls; the
remaining public operations (`hashtable_get`, `hashtable_length`,
`hashtable_next`) are pure in this embedding — they take no allocation
flags and return no table — so no other operation modifies the length. -/
theorem C10_length_never_decreases (t : HashTable V) :
    (∀ (key : Key) (value : Option V) (c s : Bool),
      (hashtable_set t key value c s).1.length = t.length ∨
      (hashtable_set t key value c s).1.length = t.length + 1) ∧
    ∀ ops : List (Key × Option V), t.length ≤ (runSets t ops).length :=
  ⟨fun key value c s => set_length_cases t key value c s,
    fun ops => runSets_length_mono ops t⟩

end HashTableH
